import Mathlib

/-!
Verification of `apps/PyPotteryLens/project_manager.py` (class `ProjectManager`).

The filesystem under the projects root is modelled as an association list from
project id (directory name) to directory contents.  A directory holds an
optional metadata sidecar `project.json` (absent, present-but-unparsable, or
valid) and a list of named subfolders with their entries.  Time
(`datetime.now()`) is passed explicitly.  Python dictionaries with dynamic keys
(`workflow_status`, `settings`) are association lists over a small JSON-like
value type; `dict.update` / key assignment keep Python's replace-in-place /
append-new semantics.  Each method's `try:` block is a separate `Except`-valued
body, and the method itself catches every error and returns `False`, exactly as
the `except Exception` handlers in the source do.
-/

namespace PyPottery

/-- JSON-like values stored in the `workflow_status` and `settings`
sub-dictionaries of the sidecar.  `sl` covers the string lists
`reviewed_images` and `excluded_images`; `q` covers the float
`confidence_threshold` (exact rational, no rounding concerns arise). -/
inductive JVal where
  | s (v : String)
  | i (v : Int)
  | b (v : Bool)
  | q (v : Rat)
  | null
  | sl (v : List String)
deriving DecidableEq

/-- A Python dict with string keys, insertion-ordered. -/
abbrev Dict := List (String × JVal)

/-- `d[k]` lookup (first binding wins; keys are unique in well-formed dicts). -/
def dictGet : Dict → String → Option JVal
  | [], _ => none
  | p :: d, k => if p.1 == k then some p.2 else dictGet d k

/-- `d[k] = v`: overwrite in place if the key exists, else append (Python
dict assignment semantics). -/
def dictSet : Dict → String → JVal → Dict
  | [], k, v => [(k, v)]
  | p :: d, k, v => if p.1 == k then (k, v) :: d else p :: dictSet d k v

/-- `d.update(u)`: assign every binding of `u` into `d` in order. -/
def dictUpdate (d u : Dict) : Dict :=
  u.foldl (fun acc p => dictSet acc p.1 p.2) d

/-- The metadata document written by `create_project` to `project.json`.
The four workflow/settings containers that later code mutates through dynamic
keys are kept as dicts. -/
structure Metadata where
  project_id : String
  project_name : String
  description : String
  icon : String
  created_at : String
  last_modified : String
  workflow_status : Dict
  settings : Dict
deriving DecidableEq

/-- One entry of a directory listing: a name plus whether `is_file()` holds. -/
structure DirEntry where
  name : String
  isFile : Bool
deriving DecidableEq

/-- The `project.json` file when present: unparsable JSON (or a shape on which
the dictionary accesses raise), or a valid metadata document. -/
inductive SidecarFile where
  | invalid
  | valid (m : Metadata)
deriving DecidableEq

/-- A project directory: optional sidecar plus named subfolders. -/
structure ProjectDir where
  sidecar : Option SidecarFile
  subdirs : List (String × List DirEntry)
deriving DecidableEq

/-- Code-point lexicographic strict comparison of character lists,
structurally recursive so that concrete instances evaluate. -/
def charListLt : List Char → List Char → Bool
  | [], [] => false
  | [], _ :: _ => true
  | _ :: _, [] => false
  | a :: as, b :: bs => if a < b then true else if b < a then false else charListLt as bs

/-- Python string `<=`: code-point lexicographic order (proved below to agree
with the standard linear order on `String`). -/
def strLe (a b : String) : Bool := ! charListLt b.data a.data

/-- Python `str.lower()` as a structural character map (ASCII case mapping,
which is all the extension comparison needs). -/
def pyLower (s : String) : String := ⟨s.data.map Char.toLower⟩

/-- Insert into a sorted list before the first element that `a` may precede.
Building block of the stable sort below. -/
def insertSorted {α : Type} (le : α → α → Bool) (a : α) : List α → List α
  | [] => [a]
  | b :: l => if le a b then a :: b :: l else b :: insertSorted le a l

/-- Stable insertion sort, modelling Python's (stable) `sorted` / `list.sort`:
for a total preorder it produces the same output as any stable sort. -/
def sortBy {α : Type} (le : α → α → Bool) : List α → List α
  | [] => []
  | a :: l => insertSorted le a (sortBy le l)

/-- The projects root: directory name to directory contents. -/
abbrev FS := List (String × ProjectDir)

/-- Resolve a project directory by name. -/
def fsGet : FS → String → Option ProjectDir
  | [], _ => none
  | p :: fs, id => if p.1 == id then some p.2 else fsGet fs id

/-- Create or overwrite a project directory (writes land in the existing
directory; a fresh directory is appended). -/
def fsSet : FS → String → ProjectDir → FS
  | [], id, d => [(id, d)]
  | p :: fs, id, d => if p.1 == id then (id, d) :: fs else p :: fsSet fs id d

/-- `shutil.rmtree`: remove the directory with the given name. -/
def fsRemove : FS → String → FS
  | [], _ => []
  | p :: fs, id => if p.1 == id then fsRemove fs id else p :: fsRemove fs id

/-- `(projects_root / project_id).exists()`. -/
def dirExists (fs : FS) (id : String) : Bool :=
  (fsGet fs id).isSome

/-- Python exceptions that the modelled code can raise. -/
inductive PyErr where
  | fileNotFound
  | jsonDecodeError
  | typeError
  | valueError (msg : String)
deriving DecidableEq

/-- `_load_metadata`: open `project.json` and parse it.  Raises
`FileNotFoundError` if the file is absent and `JSONDecodeError` (or similar)
if it is unparsable. -/
def load_metadata (d : ProjectDir) : Except PyErr Metadata :=
  match d.sidecar with
  | none => .error .fileNotFound
  | some .invalid => .error .jsonDecodeError
  | some (.valid m) => .ok m

/-- `_save_metadata`: write the document to `project.json`. -/
def save_metadata (d : ProjectDir) (m : Metadata) : ProjectDir :=
  { d with sidecar := some (.valid m) }

/-- Name sanitization in `create_project`: keep alphanumerics, space, dash,
underscore; strip; replace spaces with underscores. -/
def sanitizeName (name : String) : String :=
  ((((name.data.filter
      (fun c => c.isAlphanum || c == ' ' || c == '-' || c == '_'))).asString).trim).replace " " "_"

/-- The `workflow_status` dict written by `create_project`. -/
def initialWorkflowStatus : Dict :=
  [("pdf_processed", .b false), ("pdf_count", .i 0), ("images_extracted", .i 0),
   ("model_applied", .b false), ("masks_extracted", .i 0), ("annotations_completed", .i 0),
   ("total_images", .i 0), ("reviewed_images", .sl [])]

/-- The float literal `0.5` as an exact rational. -/
def ratHalf : Rat := ⟨1, 2, by decide, by decide⟩

/-- The `settings` dict written by `create_project`. -/
def initialSettings : Dict :=
  [("model_file", .null), ("confidence_threshold", .q ratHalf),
   ("excluded_images", .sl [])]

/-- The fixed subfolder skeleton `create_project` lays out. -/
def projectFolders : List String :=
  ["pdf_source", "images", "masks", "cards", "cards_modified", "exports", "models"]

/-- The three `datetime.now()` observations `create_project` makes: the
`%Y%m%d_%H%M%S` id stamp and the two `isoformat()` strings. -/
structure Clock where
  stamp : String
  createdIso : String
  modifiedIso : String
deriving DecidableEq

/-- The metadata document `create_project` writes: derived id, the given
name, description and icon, both timestamps, and the initial workflow and
settings dicts. -/
def newMetadata (project_name description icon : String) (clk : Clock) : Metadata :=
  { project_id := sanitizeName project_name ++ "_" ++ clk.stamp,
    project_name, description, icon,
    created_at := clk.createdIso, last_modified := clk.modifiedIso,
    workflow_status := initialWorkflowStatus, settings := initialSettings }

/-- The empty folder skeleton `create_project` lays out. -/
def newProjectDir : ProjectDir :=
  { sidecar := none, subdirs := projectFolders.map (fun f => (f, [])) }

/-- `create_project`: derive the id from the sanitized name and the stamp,
raise `ValueError` if that directory already exists, otherwise create the
folder skeleton, write the initial sidecar, and return the metadata. -/
def create_project (fs : FS) (project_name description icon : String) (clk : Clock) :
    Except PyErr (Metadata × FS) :=
  let project_id := sanitizeName project_name ++ "_" ++ clk.stamp
  if dirExists fs project_id then
    .error (.valueError ("Project already exists: " ++ project_id))
  else
    let metadata := newMetadata project_name description icon clk
    .ok (metadata, fsSet fs project_id (save_metadata newProjectDir metadata))

/-- `get_project`: `None` when the directory is absent; load the sidecar,
catching any error into `None`. -/
def get_project (fs : FS) (id : String) : Option Metadata :=
  match fsGet fs id with
  | none => none
  | some pdir =>
    match load_metadata pdir with
    | .ok md => some md
    | .error _ => none

/-- `list_projects`: every directory whose sidecar loads, sorted by
`last_modified` descending (unparsable sidecars are logged and skipped). -/
def list_projects (fs : FS) : List Metadata :=
  sortBy (fun a b => strLe b.last_modified a.last_modified)
    (fs.filterMap (fun p =>
      match p.2.sidecar with
      | some (SidecarFile.valid m) => some m
      | _ => none))

/-- `delete_project`: `False` when the directory is absent, otherwise remove
the whole tree. -/
def delete_project (fs : FS) (id : String) : Bool × FS :=
  match fsGet fs id with
  | none => (false, fs)
  | some _ => (true, fsRemove fs id)

/-- The `try:` body of `update_workflow_status`: load, merge the updates into
`workflow_status`, refresh `last_modified`, save. -/
def update_workflow_status_try (pdir : ProjectDir) (status_updates : Dict) (now : String) :
    Except PyErr ProjectDir :=
  match load_metadata pdir with
  | .error e => .error e
  | .ok md =>
    .ok (save_metadata pdir
      { md with workflow_status := dictUpdate md.workflow_status status_updates,
                last_modified := now })

/-- `update_workflow_status`: `False` when the directory is absent; any
exception in the body is caught, printed, and turned into `False`. -/
def update_workflow_status (fs : FS) (id : String) (status_updates : Dict) (now : String) :
    Bool × FS :=
  match fsGet fs id with
  | none => (false, fs)
  | some pdir =>
    match update_workflow_status_try pdir status_updates now with
    | .ok pdir2 => (true, fsSet fs id pdir2)
    | .error _ => (false, fs)

/-- The `try:` body of `update_settings`. -/
def update_settings_try (pdir : ProjectDir) (settings : Dict) (now : String) :
    Except PyErr ProjectDir :=
  match load_metadata pdir with
  | .error e => .error e
  | .ok md =>
    .ok (save_metadata pdir
      { md with settings := dictUpdate md.settings settings, last_modified := now })

/-- `update_settings`, with the same catch-into-`False` shape. -/
def update_settings (fs : FS) (id : String) (settings : Dict) (now : String) : Bool × FS :=
  match fsGet fs id with
  | none => (false, fs)
  | some pdir =>
    match update_settings_try pdir settings now with
    | .ok pdir2 => (true, fsSet fs id pdir2)
    | .error _ => (false, fs)

/-- The document written by `update_excluded_images`: the key
`settings['excluded_images']` is assigned the new list wholesale and
`last_modified` is refreshed. -/
def excludedWrite (md : Metadata) (excluded_images : List String) (now : String) :
    Metadata :=
  { md with settings := dictSet md.settings "excluded_images" (.sl excluded_images),
            last_modified := now }

/-- The `try:` body of `update_excluded_images`: full replacement of
`settings['excluded_images']`. -/
def update_excluded_images_try (pdir : ProjectDir) (excluded_images : List String)
    (now : String) : Except PyErr ProjectDir :=
  match load_metadata pdir with
  | .error e => .error e
  | .ok md => .ok (save_metadata pdir (excludedWrite md excluded_images now))

/-- `update_excluded_images`, with the same catch-into-`False` shape. -/
def update_excluded_images (fs : FS) (id : String) (excluded_images : List String)
    (now : String) : Bool × FS :=
  match fsGet fs id with
  | none => (false, fs)
  | some pdir =>
    match update_excluded_images_try pdir excluded_images now with
    | .ok pdir2 => (true, fsSet fs id pdir2)
    | .error _ => (false, fs)

/-- The document written by `add_reviewed_image` when the name is new: the
name is appended to `reviewed_images`, `annotations_completed` is set to the
new length, and `last_modified` is refreshed. -/
def reviewedWrite (md : Metadata) (reviewed : List String) (image_name now : String) :
    Metadata :=
  let reviewed2 := reviewed ++ [image_name]
  let ws := dictSet (dictSet md.workflow_status "reviewed_images" (.sl reviewed2))
    "annotations_completed" (.i reviewed2.length)
  { md with workflow_status := ws, last_modified := now }

/-- The `try:` body of `add_reviewed_image`.  `reviewed_images` is read with
`.get(... , [])`; a value that is not a list raises.  When the name is already
present nothing is written (`.ok none`); otherwise the updated document is
saved. -/
def add_reviewed_image_try (pdir : ProjectDir) (image_name : String) (now : String) :
    Except PyErr (Option ProjectDir) :=
  match load_metadata pdir with
  | .error e => .error e
  | .ok md =>
    match (dictGet md.workflow_status "reviewed_images").getD (.sl []) with
    | .sl reviewed =>
      if image_name ∈ reviewed then .ok none
      else .ok (some (save_metadata pdir (reviewedWrite md reviewed image_name now)))
    | _ => .error .typeError

/-- `add_reviewed_image`: `False` when the directory is absent; returns `True`
both when it wrote and when the name was already reviewed (no-op); any
exception is caught into `False`. -/
def add_reviewed_image (fs : FS) (id image_name now : String) : Bool × FS :=
  match fsGet fs id with
  | none => (false, fs)
  | some pdir =>
    match add_reviewed_image_try pdir image_name now with
    | .ok none => (true, fs)
    | .ok (some pdir2) => (true, fsSet fs id pdir2)
    | .error _ => (false, fs)

/-- `get_project_path`: `None` when the directory is absent; otherwise the
project path, joined with the subfolder when one is given (`if subfolder:` is
Python truthiness, so the empty string behaves like `None`).  Paths are lists
of components below the projects root. -/
def get_project_path (fs : FS) (id : String) (subfolder : Option String) :
    Option (List String) :=
  match fsGet fs id with
  | none => none
  | some _ =>
    match subfolder with
    | some sub => if sub.isEmpty then some [id] else some [id, sub]
    | none => some [id]

/-- Entries of a named subfolder of a project directory. -/
def subdirEntries (d : ProjectDir) (sub : String) : Option (List DirEntry) :=
  (d.subdirs.find? (fun p => p.1 == sub)).map (·.2)

/-- Directory listing of a path below the projects root: a project directory
itself lists its subfolders (not files) plus the sidecar file when present;
a one-level subfolder lists its entries. -/
def pathEntries (fs : FS) : List String → Option (List DirEntry)
  | [id] =>
    (fsGet fs id).map (fun d =>
      (d.subdirs.map (fun p => ({ name := p.1, isFile := false } : DirEntry))) ++
      (match d.sidecar with
       | none => []
       | some _ => [({ name := "project.json", isFile := true } : DirEntry)]))
  | [id, sub] => (fsGet fs id).bind (fun d => subdirEntries d sub)
  | _ => none

/-- Index of the last occurrence of a character (Python `str.rfind`). -/
def rfindIdx (c : Char) : List Char → Option Nat
  | [] => none
  | x :: xs =>
    match rfindIdx c xs with
    | some i => some (i + 1)
    | none => if x == c then some 0 else none

/-- `pathlib.PurePath.suffix` on a file name: the part from the last dot on,
empty when there is no dot, the dot is leading, or the dot is last. -/
def pySuffix (name : String) : String :=
  match rfindIdx '.' name.data with
  | none => ""
  | some i =>
    if 0 < i && i + 1 < name.data.length then (name.data.drop i).asString else ""

/-- The fixed allow-list of image extensions in `get_images_list`. -/
def image_extensions : List String := [".jpg", ".jpeg", ".png", ".bmp", ".tif", ".tiff"]

/-- `get_images_list`: resolve the folder via `get_project_path`; empty when
the project or the folder is absent; otherwise the names of the regular files
whose lowercased suffix is in the allow-list, sorted. -/
def get_images_list (fs : FS) (id : String) (folder_type : String) : List String :=
  match get_project_path fs id (some folder_type) with
  | none => []
  | some path =>
    match pathEntries fs path with
    | none => []
    | some entries =>
      sortBy strLe
        ((entries.filter (fun e =>
          e.isFile && image_extensions.contains (pyLower (pySuffix e.name)))).map
          (fun e => e.name))

/-- `count_files`. -/
def count_files (fs : FS) (id : String) (folder_type : String) : Nat :=
  (get_images_list fs id folder_type).length

/-! Concrete states used to instantiate the theorems below. -/

/-- A freshly created project's metadata. -/
def mdA : Metadata :=
  { project_id := "p1", project_name := "P 1", description := "", icon := "1.png",
    created_at := "2026-01-01T00:00:00", last_modified := "2026-01-01T00:00:00",
    workflow_status := initialWorkflowStatus, settings := initialSettings }

/-- The directory of `mdA`, with the standard folder skeleton. -/
def pdirA : ProjectDir :=
  { sidecar := some (.valid mdA), subdirs := projectFolders.map (fun f => (f, [])) }

/-- A projects root holding the single healthy project `p1`. -/
def fsA : FS := [("p1", pdirA)]

/-- The `workflow_status` dict after `img1.png` has been reviewed. -/
def wsR : Dict :=
  dictSet (dictSet initialWorkflowStatus "reviewed_images" (.sl ["img1.png"]))
    "annotations_completed" (.i 1)

/-- `mdA` with one image already reviewed. -/
def mdR : Metadata := { mdA with workflow_status := wsR }

/-- The directory of `mdR`. -/
def pdirR : ProjectDir := { pdirA with sidecar := some (.valid mdR) }

/-- A projects root where `p1` already has `img1.png` reviewed. -/
def fsR : FS := [("p1", pdirR)]

/-- A directory whose `project.json` is present but unparsable. -/
def pdirInvalid : ProjectDir := { sidecar := some .invalid, subdirs := [] }

/-- A projects root where the directory `p1` exists but `project.json` is
unparsable. -/
def fsInvalid : FS := [("p1", pdirInvalid)]

/-- A directory with no `project.json` at all. -/
def pdirNoSidecar : ProjectDir := { sidecar := none, subdirs := [] }

/-- A projects root where the directory `p1` exists but has no `project.json`. -/
def fsNoSidecar : FS := [("p1", pdirNoSidecar)]

/-- An `images` folder holding `a.png`, `b.txt`, `c.JPG` and a subdirectory. -/
def imagesEntries : List DirEntry :=
  [⟨"a.png", true⟩, ⟨"b.txt", true⟩, ⟨"c.JPG", true⟩, ⟨"thumbs", false⟩]

/-- A project directory with that `images` folder. -/
def pdirImgs : ProjectDir :=
  { sidecar := some (.valid mdA), subdirs := [("images", imagesEntries)] }

/-- A projects root whose project `p2` has that `images` folder. -/
def fsImgs : FS := [("p2", pdirImgs)]

/-- A concrete clock for the creation witness. -/
def clkW : Clock := ⟨"20260101_000000", "2026-01-01T00:00:00", "2026-01-01T00:00:01"⟩

/-- The record created in the creation witness. -/
def mdNew : Metadata := newMetadata "P 1" "d" "1.png" clkW

/-- The projects root right after the witness creation. -/
def fsNew : FS :=
  fsSet [] (sanitizeName "P 1" ++ "_" ++ clkW.stamp) (save_metadata newProjectDir mdNew)

/-- A clock one second later than `clkW`. -/
def clkW2 : Clock := ⟨"20260101_000001", "2026-01-01T00:00:01", "2026-01-01T00:00:02"⟩

/-! Helper lemmas about the filesystem and dictionary primitives. -/

theorem fsGet_fsSet_self (fs : FS) (id : String) (d : ProjectDir) :
    fsGet (fsSet fs id d) id = some d := by
  induction fs with
  | nil => simp [fsGet, fsSet]
  | cons p fs ih =>
    by_cases h : p.1 = id
    · simp [fsGet, fsSet, h]
    · simp [fsGet, fsSet, h, ih]

theorem fsGet_fsSet_ne (fs : FS) (id k : String) (d : ProjectDir) (h : k ≠ id) :
    fsGet (fsSet fs id d) k = fsGet fs k := by
  induction fs with
  | nil => simp [fsGet, fsSet, Ne.symm h]
  | cons p fs ih =>
    by_cases h2 : p.1 = id
    · simp [fsGet, fsSet, h2, Ne.symm h, h]
    · by_cases h3 : p.1 = k <;> simp [fsGet, fsSet, h2, h3, h, ih]

theorem fsGet_fsRemove_self (fs : FS) (id : String) :
    fsGet (fsRemove fs id) id = none := by
  induction fs with
  | nil => simp [fsGet, fsRemove]
  | cons p fs ih =>
    by_cases h : p.1 = id
    · simp [fsRemove, h, ih]
    · simp [fsRemove, fsGet, h, ih]

theorem mem_fsRemove {fs : FS} {id : String} {p : String × ProjectDir}
    (h : p ∈ fsRemove fs id) : p ∈ fs ∧ p.1 ≠ id := by
  induction fs with
  | nil => simp [fsRemove] at h
  | cons q fs ih =>
    by_cases h2 : q.1 = id
    · simp [fsRemove, h2] at h
      exact ⟨List.mem_cons_of_mem _ (ih h).1, (ih h).2⟩
    · simp [fsRemove, h2] at h
      rcases h with h | h
      · subst h; exact ⟨List.mem_cons_self _ _, h2⟩
      · exact ⟨List.mem_cons_of_mem _ (ih h).1, (ih h).2⟩

theorem dictGet_dictSet_self (d : Dict) (k : String) (v : JVal) :
    dictGet (dictSet d k v) k = some v := by
  induction d with
  | nil => simp [dictGet, dictSet]
  | cons p d ih =>
    by_cases h : p.1 = k
    · simp [dictGet, dictSet, h]
    · simp [dictGet, dictSet, h, ih]

theorem dictGet_dictSet_ne (d : Dict) (k k2 : String) (v : JVal) (h : k2 ≠ k) :
    dictGet (dictSet d k v) k2 = dictGet d k2 := by
  induction d with
  | nil => simp [dictGet, dictSet, Ne.symm h]
  | cons p d ih =>
    by_cases h2 : p.1 = k
    · simp [dictGet, dictSet, h2, Ne.symm h, h]
    · by_cases h3 : p.1 = k2 <;> simp [dictGet, dictSet, h2, h3, h, ih]

theorem string_append_left_cancel {s a b : String} (h : s ++ a = s ++ b) : a = b := by
  have h2 : (s ++ a).data = (s ++ b).data := congrArg String.data h
  simp only [String.data_append] at h2
  exact String.ext (List.append_cancel_left h2)

theorem load_save (pdir : ProjectDir) (m : Metadata) :
    load_metadata (save_metadata pdir m) = .ok m := rfl

theorem reviewedWrite_reviewed (md : Metadata) (rev : List String) (name now : String) :
    dictGet (reviewedWrite md rev name now).workflow_status "reviewed_images" =
      some (.sl (rev ++ [name])) := by
  show dictGet (dictSet (dictSet md.workflow_status "reviewed_images"
    (.sl (rev ++ [name]))) "annotations_completed" (.i (rev ++ [name]).length))
    "reviewed_images" = some (.sl (rev ++ [name]))
  rw [dictGet_dictSet_ne _ _ _ _ (by decide), dictGet_dictSet_self]

theorem reviewedWrite_count (md : Metadata) (rev : List String) (name now : String) :
    dictGet (reviewedWrite md rev name now).workflow_status "annotations_completed" =
      some (.i (rev ++ [name]).length) := by
  show dictGet (dictSet (dictSet md.workflow_status "reviewed_images"
    (.sl (rev ++ [name]))) "annotations_completed" (.i (rev ++ [name]).length))
    "annotations_completed" = some (.i (rev ++ [name]).length)
  rw [dictGet_dictSet_self]

theorem excludedWrite_excluded (md : Metadata) (imgs : List String) (now : String) :
    dictGet (excludedWrite md imgs now).settings "excluded_images" =
      some (.sl imgs) := by
  show dictGet (dictSet md.settings "excluded_images" (.sl imgs)) "excluded_images" =
    some (.sl imgs)
  rw [dictGet_dictSet_self]

theorem fsA_wf : ∀ p ∈ fsA, ∀ m, p.2.sidecar = some (SidecarFile.valid m) →
    m.project_id = p.1 := by
  intro p hp m hm
  have hp2 : p = ("p1", pdirA) := by simpa [fsA] using hp
  subst hp2
  simp only [pdirA] at hm
  injection hm with h2
  injection h2 with h3
  rw [← h3]
  rfl

/-! The claims. -/

/-- C2: for a project id whose directory does not exist under the projects
root, `update_workflow_status` returns `False` and performs no write: the
returned filesystem — every other project's sidecar included — is exactly the
input filesystem. -/
theorem update_workflow_status_missing_project (fs : FS) (id : String) (u : Dict)
    (now : String) (h : fsGet fs id = none) :
    update_workflow_status fs id u now = (false, fs) := by
  simp [update_workflow_status, h]

/-- Witness for C2: the empty projects root and the id `ghost`. -/
theorem update_workflow_status_missing_project_witness :
    fsGet ([] : FS) "ghost" = none ∧
    update_workflow_status ([] : FS) "ghost" [] "t" = (false, []) :=
  ⟨by decide, update_workflow_status_missing_project [] "ghost" [] "t" (by decide)⟩

/-- C10: when the given image is already in `reviewed_images`,
`add_reviewed_image` writes nothing — it returns `True` with the filesystem,
hence every stored metadata field `last_modified` included, unchanged. -/
theorem add_reviewed_image_noop_frame (fs : FS) (id name now : String)
    (pdir : ProjectDir) (md : Metadata) (rev : List String)
    (hdir : fsGet fs id = some pdir)
    (hload : load_metadata pdir = .ok md)
    (hrev : (dictGet md.workflow_status "reviewed_images").getD (.sl []) = .sl rev)
    (hmem : name ∈ rev) :
    add_reviewed_image fs id name now = (true, fs) := by
  simp [add_reviewed_image, add_reviewed_image_try, hdir, hload, hrev, hmem]

/-- Witness for C10: marking `img1.png` again on the project `fsR` that has
already reviewed it. -/
theorem add_reviewed_image_noop_frame_witness :
    fsGet fsR "p1" = some pdirR ∧
    load_metadata pdirR = .ok mdR ∧
    (dictGet mdR.workflow_status "reviewed_images").getD (.sl []) = .sl ["img1.png"] ∧
    "img1.png" ∈ ["img1.png"] ∧
    add_reviewed_image fsR "p1" "img1.png" "2026-02-02T00:00:00" = (true, fsR) :=
  ⟨by decide, rfl, by decide, by decide,
   add_reviewed_image_noop_frame fsR "p1" "img1.png" "2026-02-02T00:00:00" pdirR mdR
     ["img1.png"] (by decide) rfl (by decide) (by decide)⟩

/-- C8 counterexample: on a project whose sidecar is unparsable, the body of
`update_workflow_status` raises on the read, yet the operation catches the
exception and returns `False` with the filesystem unchanged — the error is
swallowed into a false return value, not propagated to the caller. -/
theorem update_workflow_status_swallows_error :
    fsGet fsInvalid "p1" = some pdirInvalid ∧
    update_workflow_status_try pdirInvalid [] "t" = .error .jsonDecodeError ∧
    update_workflow_status fsInvalid "p1" [] "t" = (false, fsInvalid) :=
  ⟨by decide, rfl, by decide⟩

/-- C8 amended: on an existing project directory, an error raised while
reading the sidecar on the read-modify-write path (absent or unparsable
`project.json`) is caught inside each mutating operation, which returns
`False` and leaves the filesystem unchanged; no exception reaches the
caller. -/
theorem mutating_ops_catch_errors (fs : FS) (id now name : String) (u : Dict)
    (imgs : List String) (pdir : ProjectDir) (e : PyErr)
    (hdir : fsGet fs id = some pdir)
    (hload : load_metadata pdir = .error e) :
    update_workflow_status fs id u now = (false, fs) ∧
    update_settings fs id u now = (false, fs) ∧
    update_excluded_images fs id imgs now = (false, fs) ∧
    add_reviewed_image fs id name now = (false, fs) := by
  refine ⟨?_, ?_, ?_, ?_⟩ <;>
    simp [update_workflow_status, update_workflow_status_try, update_settings,
      update_settings_try, update_excluded_images, update_excluded_images_try,
      add_reviewed_image, add_reviewed_image_try, hdir, hload]

/-- Witness for the amended C8: the unparsable-sidecar project. -/
theorem mutating_ops_catch_errors_witness :
    fsGet fsInvalid "p1" = some pdirInvalid ∧
    load_metadata pdirInvalid = .error .jsonDecodeError ∧
    (update_workflow_status fsInvalid "p1" [] "t" = (false, fsInvalid) ∧
     update_settings fsInvalid "p1" [] "t" = (false, fsInvalid) ∧
     update_excluded_images fsInvalid "p1" [] "t" = (false, fsInvalid) ∧
     add_reviewed_image fsInvalid "p1" "x.png" "t" = (false, fsInvalid)) :=
  ⟨by decide, rfl,
   mutating_ops_catch_errors fsInvalid "p1" "t" "x.png" [] [] pdirInvalid
     .jsonDecodeError (by decide) rfl⟩

/-- C9 counterexample: the directory `p1` exists without `project.json`;
`get_project` treats the project as absent, but `get_project_path` still
returns the path rather than `None`. -/
theorem get_project_path_ignores_missing_sidecar :
    fsGet fsNoSidecar "p1" = some pdirNoSidecar ∧
    pdirNoSidecar.sidecar = none ∧
    get_project fsNoSidecar "p1" = none ∧
    get_project_path fsNoSidecar "p1" none = some ["p1"] ∧
    ¬ get_project_path fsNoSidecar "p1" none = none :=
  ⟨by decide, rfl, by decide, by decide, by decide⟩

/-- C9 amended: `get_project_path` checks only directory existence — it
returns `None` exactly when the project directory is absent and returns the
project path whenever the directory exists, sidecar or not; `get_project`, by
contrast, returns `None` when the sidecar file is absent. -/
theorem get_project_path_checks_directory_only (fs : FS) (id : String) :
    (fsGet fs id = none → get_project_path fs id none = none) ∧
    (∀ pdir, fsGet fs id = some pdir →
      get_project_path fs id none = some [id] ∧
      (pdir.sidecar = none → get_project fs id = none)) := by
  constructor
  · intro h; simp [get_project_path, h]
  · intro pdir h
    refine ⟨by simp [get_project_path, h], fun hs => ?_⟩
    simp [get_project, h, load_metadata, hs]

/-- C1: on an existing project where `name` is not yet reviewed and the
reviewed list is duplicate-free, calling `add_reviewed_image` twice with the
same name returns `True` both times, the second call changes nothing, and the
stored `reviewed_images` contains exactly one occurrence of `name` with
`annotations_completed` equal to the size of the reviewed set (its length,
the list staying duplicate-free) — `1` when starting from the empty list. -/
theorem add_reviewed_image_idempotent (fs : FS) (id name t1 t2 : String)
    (pdir : ProjectDir) (md : Metadata) (rev : List String)
    (hdir : fsGet fs id = some pdir)
    (hload : load_metadata pdir = .ok md)
    (hrev : (dictGet md.workflow_status "reviewed_images").getD (.sl []) = .sl rev)
    (hmem : name ∉ rev) (hnd : rev.Nodup) :
    (add_reviewed_image fs id name t1).1 = true ∧
    (add_reviewed_image (add_reviewed_image fs id name t1).2 id name t2).1 = true ∧
    (add_reviewed_image (add_reviewed_image fs id name t1).2 id name t2).2 =
      (add_reviewed_image fs id name t1).2 ∧
    ∃ md1, get_project (add_reviewed_image fs id name t1).2 id = some md1 ∧
      dictGet md1.workflow_status "reviewed_images" = some (.sl (rev ++ [name])) ∧
      (rev ++ [name]).count name = 1 ∧ (rev ++ [name]).Nodup ∧
      dictGet md1.workflow_status "annotations_completed" =
        some (.i (rev ++ [name]).length) := by
  have hstep : add_reviewed_image fs id name t1 =
      (true, fsSet fs id (save_metadata pdir (reviewedWrite md rev name t1))) := by
    simp [add_reviewed_image, add_reviewed_image_try, hdir, hload, hrev, hmem]
  have hget2 : fsGet (fsSet fs id (save_metadata pdir (reviewedWrite md rev name t1))) id
      = some (save_metadata pdir (reviewedWrite md rev name t1)) :=
    fsGet_fsSet_self fs id _
  have hrev1 : (dictGet (reviewedWrite md rev name t1).workflow_status
      "reviewed_images").getD (.sl []) = .sl (rev ++ [name]) := by
    rw [reviewedWrite_reviewed]; rfl
  have hstep2 : add_reviewed_image
      (fsSet fs id (save_metadata pdir (reviewedWrite md rev name t1))) id name t2 =
      (true, fsSet fs id (save_metadata pdir (reviewedWrite md rev name t1))) := by
    simp [add_reviewed_image, add_reviewed_image_try, hget2, load_save, hrev1]
  rw [hstep, hstep2]
  refine ⟨rfl, rfl, rfl, reviewedWrite md rev name t1, ?_, reviewedWrite_reviewed md rev name t1, ?_, ?_, reviewedWrite_count md rev name t1⟩
  · simp [get_project, fsGet_fsSet_self, load_save]
  · simp [List.count_append, List.count_eq_zero.mpr hmem, List.count_singleton_self]
  · simp [List.nodup_append, hnd, hmem]

/-- Witness for C1: marking `img1.png` twice on the fresh project `fsA`,
whose reviewed list starts empty. -/
theorem add_reviewed_image_idempotent_witness :
    fsGet fsA "p1" = some pdirA ∧
    load_metadata pdirA = .ok mdA ∧
    (dictGet mdA.workflow_status "reviewed_images").getD (.sl []) = .sl [] ∧
    "img1.png" ∉ ([] : List String) ∧ ([] : List String).Nodup ∧
    ((add_reviewed_image fsA "p1" "img1.png" "t1").1 = true ∧
     (add_reviewed_image (add_reviewed_image fsA "p1" "img1.png" "t1").2 "p1" "img1.png"
       "t2").1 = true ∧
     (add_reviewed_image (add_reviewed_image fsA "p1" "img1.png" "t1").2 "p1" "img1.png"
       "t2").2 = (add_reviewed_image fsA "p1" "img1.png" "t1").2 ∧
     ∃ md1, get_project (add_reviewed_image fsA "p1" "img1.png" "t1").2 "p1" = some md1 ∧
       dictGet md1.workflow_status "reviewed_images" = some (.sl ["img1.png"]) ∧
       (["img1.png"] : List String).count "img1.png" = 1 ∧
       (["img1.png"] : List String).Nodup ∧
       dictGet md1.workflow_status "annotations_completed" = some (.i 1)) :=
  ⟨by decide, rfl, by decide, by decide, by decide,
   by simpa using add_reviewed_image_idempotent fsA "p1" "img1.png" "t1" "t2" pdirA
        mdA [] (by decide) rfl (by decide) (by decide) (by decide)⟩

/-- C3: when `create_project` succeeds, `get_project` at the returned id
reads back the very record `create_project` returned, field for field; in
particular the stored `last_modified` is no earlier than the returned one. -/
theorem create_get_roundtrip (fs : FS) (name desc icon : String) (clk : Clock)
    (m : Metadata) (fs2 : FS)
    (h : create_project fs name desc icon clk = .ok (m, fs2)) :
    get_project fs2 m.project_id = some m ∧
    ∀ m2, get_project fs2 m.project_id = some m2 → m.last_modified ≤ m2.last_modified := by
  cases hex : dirExists fs (sanitizeName name ++ "_" ++ clk.stamp) with
  | true => simp [create_project, hex] at h
  | false =>
    simp only [create_project, hex, Bool.false_eq_true, if_false, Except.ok.injEq,
      Prod.mk.injEq] at h
    obtain ⟨hm, hfs⟩ := h
    subst hm
    subst hfs
    have hget : get_project
        (fsSet fs (sanitizeName name ++ "_" ++ clk.stamp)
          (save_metadata newProjectDir (newMetadata name desc icon clk)))
        (newMetadata name desc icon clk).project_id =
        some (newMetadata name desc icon clk) := by
      show get_project
        (fsSet fs (sanitizeName name ++ "_" ++ clk.stamp)
          (save_metadata newProjectDir (newMetadata name desc icon clk)))
        (sanitizeName name ++ "_" ++ clk.stamp) = some (newMetadata name desc icon clk)
      simp [get_project, fsGet_fsSet_self, load_save]
    refine ⟨hget, fun m2 h2 => ?_⟩
    rw [hget] at h2
    injection h2 with h3
    subst h3
    exact le_refl _

/-- Witness for C3: creating `P 1` on the empty projects root and reading it
back. -/
theorem create_get_roundtrip_witness :
    create_project [] "P 1" "d" "1.png" clkW = .ok (mdNew, fsNew) ∧
    (get_project fsNew mdNew.project_id = some mdNew ∧
     ∀ m2, get_project fsNew mdNew.project_id = some m2 →
       mdNew.last_modified ≤ m2.last_modified) :=
  ⟨rfl, create_get_roundtrip [] "P 1" "d" "1.png" clkW mdNew fsNew rfl⟩

/-- C6: after a successful create, a second create whose derived id (the
sanitized name joined with the second-resolution stamp) collides with the
first raises `ValueError` — the first project is not overwritten, the call
returns no new state; with the same name but a different stamp (and that id
fresh in the original root) the second create succeeds with a distinct id and
the first project still reads back intact. -/
theorem create_project_conflict (fs : FS) (n1 d1 i1 n2 d2 i2 : String)
    (clk1 clk2 : Clock) (m1 : Metadata) (fs1 : FS)
    (h1 : create_project fs n1 d1 i1 clk1 = .ok (m1, fs1)) :
    (sanitizeName n2 ++ "_" ++ clk2.stamp = m1.project_id →
      create_project fs1 n2 d2 i2 clk2 =
        .error (.valueError ("Project already exists: " ++ m1.project_id))) ∧
    (sanitizeName n2 = sanitizeName n1 → clk2.stamp ≠ clk1.stamp →
      fsGet fs (sanitizeName n2 ++ "_" ++ clk2.stamp) = none →
      ∃ m2 fs2, create_project fs1 n2 d2 i2 clk2 = .ok (m2, fs2) ∧
        m2.project_id ≠ m1.project_id ∧
        get_project fs2 m1.project_id = some m1) := by
  cases hex : dirExists fs (sanitizeName n1 ++ "_" ++ clk1.stamp) with
  | true => simp [create_project, hex] at h1
  | false =>
    simp only [create_project, hex, Bool.false_eq_true, if_false, Except.ok.injEq,
      Prod.mk.injEq] at h1
    obtain ⟨hm, hfs⟩ := h1
    subst hm
    subst hfs
    constructor
    · intro hcoll
      have hpid : (newMetadata n1 d1 i1 clk1).project_id =
          sanitizeName n1 ++ "_" ++ clk1.stamp := rfl
      rw [hpid] at hcoll
      have hex2 : dirExists
          (fsSet fs (sanitizeName n1 ++ "_" ++ clk1.stamp)
            (save_metadata newProjectDir (newMetadata n1 d1 i1 clk1)))
          (sanitizeName n2 ++ "_" ++ clk2.stamp) = true := by
        rw [hcoll]
        simp [dirExists, fsGet_fsSet_self]
      simp only [create_project, hex2, if_true]
      rw [hcoll, hpid]
    · intro hsan hne hfresh
      have hid : sanitizeName n2 ++ "_" ++ clk2.stamp ≠
          sanitizeName n1 ++ "_" ++ clk1.stamp := by
        rw [hsan]
        intro hEq
        exact hne (string_append_left_cancel hEq)
      have hdir2 : fsGet
          (fsSet fs (sanitizeName n1 ++ "_" ++ clk1.stamp)
            (save_metadata newProjectDir (newMetadata n1 d1 i1 clk1)))
          (sanitizeName n2 ++ "_" ++ clk2.stamp) = none := by
        rw [fsGet_fsSet_ne _ _ _ _ hid]
        exact hfresh
      refine ⟨newMetadata n2 d2 i2 clk2,
        fsSet (fsSet fs (sanitizeName n1 ++ "_" ++ clk1.stamp)
            (save_metadata newProjectDir (newMetadata n1 d1 i1 clk1)))
          (sanitizeName n2 ++ "_" ++ clk2.stamp)
          (save_metadata newProjectDir (newMetadata n2 d2 i2 clk2)), ?_, ?_, ?_⟩
      · simp [create_project, dirExists, hdir2]
      · show sanitizeName n2 ++ "_" ++ clk2.stamp ≠ (newMetadata n1 d1 i1 clk1).project_id
        exact hid
      · show get_project
          (fsSet (fsSet fs (sanitizeName n1 ++ "_" ++ clk1.stamp)
              (save_metadata newProjectDir (newMetadata n1 d1 i1 clk1)))
            (sanitizeName n2 ++ "_" ++ clk2.stamp)
            (save_metadata newProjectDir (newMetadata n2 d2 i2 clk2)))
          (newMetadata n1 d1 i1 clk1).project_id = some (newMetadata n1 d1 i1 clk1)
        have hpid : (newMetadata n1 d1 i1 clk1).project_id =
            sanitizeName n1 ++ "_" ++ clk1.stamp := rfl
        rw [hpid]
        have hg : fsGet
            (fsSet (fsSet fs (sanitizeName n1 ++ "_" ++ clk1.stamp)
                (save_metadata newProjectDir (newMetadata n1 d1 i1 clk1)))
              (sanitizeName n2 ++ "_" ++ clk2.stamp)
              (save_metadata newProjectDir (newMetadata n2 d2 i2 clk2)))
            (sanitizeName n1 ++ "_" ++ clk1.stamp) =
            some (save_metadata newProjectDir (newMetadata n1 d1 i1 clk1)) := by
          rw [fsGet_fsSet_ne _ _ _ _ (Ne.symm hid)]
          exact fsGet_fsSet_self fs _ _
        simp [get_project, hg, load_save]

/-- Witness for C6: creating `P 1` twice with the same stamp raises
`ValueError`; with a one-second-later stamp it succeeds with a distinct id
and the first record still reads back. -/
theorem create_project_conflict_witness :
    create_project [] "P 1" "d" "1.png" clkW = .ok (mdNew, fsNew) ∧
    sanitizeName "P 1" ++ "_" ++ clkW.stamp = mdNew.project_id ∧
    sanitizeName "P 1" = sanitizeName "P 1" ∧
    clkW2.stamp ≠ clkW.stamp ∧
    fsGet [] (sanitizeName "P 1" ++ "_" ++ clkW2.stamp) = none ∧
    create_project fsNew "P 1" "d" "1.png" clkW =
      .error (.valueError ("Project already exists: " ++ mdNew.project_id)) ∧
    (∃ m2 fs2, create_project fsNew "P 1" "d" "1.png" clkW2 = .ok (m2, fs2) ∧
      m2.project_id ≠ mdNew.project_id ∧
      get_project fs2 mdNew.project_id = some mdNew) :=
  ⟨rfl, rfl, rfl, by decide, rfl,
   (create_project_conflict [] "P 1" "d" "1.png" "P 1" "d" "1.png" clkW clkW mdNew
     fsNew rfl).1 rfl,
   (create_project_conflict [] "P 1" "d" "1.png" "P 1" "d" "1.png" clkW clkW2 mdNew
     fsNew rfl).2 rfl (by decide) rfl⟩

theorem mem_insertSorted {α : Type} {le : α → α → Bool} {a x : α} {l : List α} :
    x ∈ insertSorted le a l ↔ x = a ∨ x ∈ l := by
  induction l with
  | nil => simp [insertSorted]
  | cons b l ih =>
    by_cases h : le a b
    · simp [insertSorted, h]
    · simp [insertSorted, h, ih]
      tauto

theorem mem_sortBy {α : Type} {le : α → α → Bool} {x : α} {l : List α} :
    x ∈ sortBy le l ↔ x ∈ l := by
  induction l with
  | nil => simp [sortBy]
  | cons a l ih => simp [sortBy, mem_insertSorted, ih]

theorem pairwise_insertSorted {α : Type} {le : α → α → Bool}
    (total : ∀ a b, (le a b || le b a) = true)
    (trans : ∀ a b c, le a b = true → le b c = true → le a c = true)
    (a : α) {l : List α} (h : l.Pairwise (fun x y => le x y = true)) :
    (insertSorted le a l).Pairwise (fun x y => le x y = true) := by
  induction l with
  | nil => simp [insertSorted]
  | cons b l ih =>
    rcases List.pairwise_cons.mp h with ⟨hb, hl⟩
    by_cases hab : le a b = true
    · rw [insertSorted, if_pos hab]
      refine List.pairwise_cons.mpr ⟨?_, h⟩
      intro y hy
      rcases List.mem_cons.mp hy with heq | hy
      · rw [heq]; exact hab
      · exact trans a b y hab (hb y hy)
    · rw [insertSorted, if_neg hab]
      refine List.pairwise_cons.mpr ⟨?_, ih hl⟩
      intro y hy
      rcases mem_insertSorted.mp hy with heq | hy
      · rw [heq]
        have h2 := total a b
        rw [Bool.or_eq_true] at h2
        rcases h2 with h2 | h2
        · exact absurd h2 hab
        · exact h2
      · exact hb y hy

theorem pairwise_sortBy {α : Type} {le : α → α → Bool}
    (total : ∀ a b, (le a b || le b a) = true)
    (trans : ∀ a b c, le a b = true → le b c = true → le a c = true)
    (l : List α) :
    (sortBy le l).Pairwise (fun x y => le x y = true) := by
  induction l with
  | nil => simp [sortBy]
  | cons a l ih => exact pairwise_insertSorted total trans a ih

theorem charListLt_iff (as bs : List Char) : charListLt as bs = true ↔ as < bs := by
  induction as generalizing bs with
  | nil =>
    cases bs with
    | nil =>
      simp only [charListLt]
      constructor
      · intro h; exact absurd h Bool.false_ne_true
      · intro h; cases h
    | cons b bs =>
      simp only [charListLt]
      constructor
      · intro _; exact List.Lex.nil
      · intro _; trivial
  | cons a as ih =>
    cases bs with
    | nil =>
      simp only [charListLt]
      constructor
      · intro h; exact absurd h Bool.false_ne_true
      · intro h; cases h
    | cons b bs =>
      rcases lt_trichotomy a b with h1 | h1 | h1
      · simp only [charListLt, if_pos h1]
        constructor
        · intro _; exact List.Lex.rel h1
        · intro _; trivial
      · subst h1
        have h2 : ¬ a < a := lt_irrefl a
        simp only [charListLt, if_neg h2]
        rw [ih]
        constructor
        · exact fun h => List.Lex.cons h
        · intro h
          cases h with
          | cons h3 => exact h3
          | rel h3 => exact absurd h3 h2
      · simp only [charListLt, if_neg (lt_asymm h1), if_pos h1]
        constructor
        · intro h; exact absurd h Bool.false_ne_true
        · intro h
          cases h with
          | cons h3 => exact absurd h1 (lt_irrefl _)
          | rel h3 => exact absurd h3 (lt_asymm h1)

theorem strLe_iff (a b : String) : strLe a b = true ↔ a ≤ b := by
  have h1 : strLe a b = true ↔ ¬ (b.data < a.data) := by
    rw [strLe, Bool.not_eq_true']
    rw [← charListLt_iff b.data a.data]
    exact ⟨fun h => by simp [h], fun h => by simpa using h⟩
  rw [h1]
  show (¬ b.toList < a.toList) ↔ a ≤ b
  rw [← String.lt_iff_toList_lt]
  exact not_lt

theorem strLe_total (a b : String) : (strLe a b || strLe b a) = true := by
  rw [Bool.or_eq_true]
  rcases le_total a b with h | h
  · exact Or.inl ((strLe_iff a b).mpr h)
  · exact Or.inr ((strLe_iff b a).mpr h)

theorem strLe_trans (a b c : String) (h1 : strLe a b = true) (h2 : strLe b c = true) :
    strLe a c = true :=
  (strLe_iff a c).mpr (le_trans ((strLe_iff a b).mp h1) ((strLe_iff b c).mp h2))

theorem string_sortBy_pairwise (l : List String) :
    (sortBy strLe l).Pairwise (· ≤ ·) := by
  have h : (sortBy strLe l).Pairwise (fun x y => strLe x y = true) :=
    pairwise_sortBy strLe_total strLe_trans l
  exact h.imp (fun h2 => (strLe_iff _ _).mp h2)

theorem contains_iff_mem {l : List String} {a : String} : l.contains a = true ↔ a ∈ l :=
  List.elem_iff

/-- C7: `get_images_list` returns the empty list when the project or the
folder is absent, and otherwise exactly the names of the regular files of the
folder whose lowercased suffix is one of `.jpg .jpeg .png .bmp .tif .tiff`,
in sorted order. -/
theorem get_images_list_spec (fs : FS) (id folder : String) :
    (fsGet fs id = none → get_images_list fs id folder = []) ∧
    (∀ pdir, fsGet fs id = some pdir → folder ≠ "" →
      subdirEntries pdir folder = none → get_images_list fs id folder = []) ∧
    (∀ pdir entries, fsGet fs id = some pdir → folder ≠ "" →
      subdirEntries pdir folder = some entries →
      ((get_images_list fs id folder).Pairwise (· ≤ ·) ∧
       ∀ x, x ∈ get_images_list fs id folder ↔
         ∃ e, e ∈ entries ∧ e.isFile = true ∧
           pyLower (pySuffix e.name) ∈
             [".jpg", ".jpeg", ".png", ".bmp", ".tif", ".tiff"] ∧ e.name = x)) := by
  refine ⟨fun h => ?_, fun pdir h hf hsub => ?_, fun pdir entries h hf hsub => ?_⟩
  · simp [get_images_list, get_project_path, h]
  · have hne : folder.isEmpty = false := by
      rcases h2 : folder.isEmpty with _ | _
      · rfl
      · exact absurd ((String.isEmpty_iff folder).mp h2) hf
    simp [get_images_list, get_project_path, h, hne, pathEntries, hsub]
  · have hne : folder.isEmpty = false := by
      rcases h2 : folder.isEmpty with _ | _
      · rfl
      · exact absurd ((String.isEmpty_iff folder).mp h2) hf
    have hlist : get_images_list fs id folder =
        sortBy strLe
          ((entries.filter (fun e => e.isFile && image_extensions.contains
            (pyLower (pySuffix e.name)))).map (fun e => e.name)) := by
      simp [get_images_list, get_project_path, h, hne, pathEntries, hsub]
    refine ⟨by rw [hlist]; exact string_sortBy_pairwise _, fun x => ?_⟩
    rw [hlist]
    simp only [mem_sortBy, List.mem_map, List.mem_filter]
    constructor
    · rintro ⟨e, ⟨he, hpred⟩, hname⟩
      rw [Bool.and_eq_true] at hpred
      exact ⟨e, he, hpred.1, contains_iff_mem.mp hpred.2, hname⟩
    · rintro ⟨e, he, hfile, hext, hname⟩
      refine ⟨e, ⟨he, ?_⟩, hname⟩
      rw [Bool.and_eq_true]
      exact ⟨hfile, contains_iff_mem.mpr hext⟩

/-- Witness for C7: the folder `a.png`, `b.txt`, `c.JPG` (plus a
subdirectory) yields exactly `["a.png", "c.JPG"]`, and the absent folder or
project yields `[]`. -/
theorem get_images_list_spec_witness :
    fsGet fsImgs "p2" = some pdirImgs ∧
    ("images" : String) ≠ "" ∧
    subdirEntries pdirImgs "images" = some imagesEntries ∧
    ((get_images_list fsImgs "p2" "images").Pairwise (· ≤ ·) ∧
     ∀ x, x ∈ get_images_list fsImgs "p2" "images" ↔
       ∃ e, e ∈ imagesEntries ∧ e.isFile = true ∧
         pyLower (pySuffix e.name) ∈
           [".jpg", ".jpeg", ".png", ".bmp", ".tif", ".tiff"] ∧ e.name = x) ∧
    get_images_list fsImgs "p2" "images" = ["a.png", "c.JPG"] ∧
    get_images_list fsImgs "p2" "masks" = [] ∧
    get_images_list fsImgs "zzz" "images" = [] :=
  ⟨by decide, by decide, by decide,
   (get_images_list_spec fsImgs "p2" "images").2.2 pdirImgs imagesEntries (by decide)
     (by decide) (by decide),
   by decide, by decide, by decide⟩

/-- C5: deleting an existing project returns `True`; afterwards `get_project`
returns `None` and `list_projects` holds no record with that id (given that
each stored sidecar's `project_id` matches its directory name, as every
record this component writes does); a second delete returns `False`. -/
theorem delete_project_finality (fs : FS) (id : String) (pdir : ProjectDir)
    (hdir : fsGet fs id = some pdir)
    (hwf : ∀ p ∈ fs, ∀ m, p.2.sidecar = some (SidecarFile.valid m) →
      m.project_id = p.1) :
    (delete_project fs id).1 = true ∧
    get_project (delete_project fs id).2 id = none ∧
    (∀ m ∈ list_projects (delete_project fs id).2, m.project_id ≠ id) ∧
    (delete_project (delete_project fs id).2 id).1 = false := by
  have hdel : delete_project fs id = (true, fsRemove fs id) := by
    simp [delete_project, hdir]
  refine ⟨by rw [hdel], ?_, ?_, ?_⟩
  · rw [hdel]; simp [get_project, fsGet_fsRemove_self]
  · rw [hdel]
    intro m hm
    simp only [list_projects, mem_sortBy, List.mem_filterMap] at hm
    obtain ⟨p, hp, hps⟩ := hm
    obtain ⟨hpfs, hpne⟩ := mem_fsRemove hp
    split at hps
    next m2 heq =>
      injection hps with h2
      subst h2
      rw [hwf p hpfs m2 heq]
      exact hpne
    next => simp at hps
  · rw [hdel]; simp [delete_project, fsGet_fsRemove_self]

/-- Witness for C5: deleting `p1` from the one-project root `fsA`. -/
theorem delete_project_finality_witness :
    fsGet fsA "p1" = some pdirA ∧
    (∀ p ∈ fsA, ∀ m, p.2.sidecar = some (SidecarFile.valid m) →
      m.project_id = p.1) ∧
    ((delete_project fsA "p1").1 = true ∧
     get_project (delete_project fsA "p1").2 "p1" = none ∧
     (∀ m ∈ list_projects (delete_project fsA "p1").2, m.project_id ≠ "p1") ∧
     (delete_project (delete_project fsA "p1").2 "p1").1 = false) :=
  ⟨by decide, fsA_wf, delete_project_finality fsA "p1" pdirA (by decide) fsA_wf⟩

/-- C4: `update_excluded_images` fully replaces the exclusion set: two
successive calls on an existing project both return `True` and leave
`settings['excluded_images']` equal to exactly the second list, not the
union of the two. -/
theorem update_excluded_images_replaces (fs : FS) (id t1 t2 : String)
    (l1 l2 : List String) (pdir : ProjectDir) (md : Metadata)
    (hdir : fsGet fs id = some pdir) (hload : load_metadata pdir = .ok md) :
    (update_excluded_images fs id l1 t1).1 = true ∧
    (update_excluded_images (update_excluded_images fs id l1 t1).2 id l2 t2).1 = true ∧
    ∃ md2, get_project (update_excluded_images
        (update_excluded_images fs id l1 t1).2 id l2 t2).2 id = some md2 ∧
      dictGet md2.settings "excluded_images" = some (.sl l2) := by
  have hstep : update_excluded_images fs id l1 t1 =
      (true, fsSet fs id (save_metadata pdir (excludedWrite md l1 t1))) := by
    simp [update_excluded_images, update_excluded_images_try, hdir, hload]
  have hget2 : fsGet (fsSet fs id (save_metadata pdir (excludedWrite md l1 t1))) id =
      some (save_metadata pdir (excludedWrite md l1 t1)) := fsGet_fsSet_self fs id _
  have hstep2 : update_excluded_images
      (fsSet fs id (save_metadata pdir (excludedWrite md l1 t1))) id l2 t2 =
      (true, fsSet (fsSet fs id (save_metadata pdir (excludedWrite md l1 t1))) id
        (save_metadata (save_metadata pdir (excludedWrite md l1 t1))
          (excludedWrite (excludedWrite md l1 t1) l2 t2))) := by
    simp [update_excluded_images, update_excluded_images_try, hget2, load_save]
  rw [hstep, hstep2]
  refine ⟨rfl, rfl, excludedWrite (excludedWrite md l1 t1) l2 t2, ?_,
    excludedWrite_excluded _ _ _⟩
  simp [get_project, fsGet_fsSet_self, load_save]

/-- Witness for C4: `["a.png"]` then `["b.png"]` on the project `fsA`. -/
theorem update_excluded_images_replaces_witness :
    fsGet fsA "p1" = some pdirA ∧ load_metadata pdirA = .ok mdA ∧
    ((update_excluded_images fsA "p1" ["a.png"] "t1").1 = true ∧
     (update_excluded_images (update_excluded_images fsA "p1" ["a.png"] "t1").2 "p1"
       ["b.png"] "t2").1 = true ∧
     ∃ md2, get_project (update_excluded_images
         (update_excluded_images fsA "p1" ["a.png"] "t1").2 "p1" ["b.png"] "t2").2 "p1" =
         some md2 ∧
       dictGet md2.settings "excluded_images" = some (.sl ["b.png"])) :=
  ⟨by decide, rfl,
   update_excluded_images_replaces fsA "p1" "t1" "t2" ["a.png"] ["b.png"] pdirA mdA
     (by decide) rfl⟩

/-- Witness for the amended C9: the sidecar-less project directory. -/
theorem get_project_path_checks_directory_only_witness :
    fsGet fsNoSidecar "p1" = some pdirNoSidecar ∧
    pdirNoSidecar.sidecar = none ∧
    get_project_path fsNoSidecar "p1" none = some ["p1"] ∧
    get_project fsNoSidecar "p1" = none :=
  ⟨by decide, rfl,
   ((get_project_path_checks_directory_only fsNoSidecar "p1").2 pdirNoSidecar
     (by decide)).1,
   ((get_project_path_checks_directory_only fsNoSidecar "p1").2 pdirNoSidecar
     (by decide)).2 rfl⟩

end PyPottery
